import Mathlib

/-!
# Verification of the TTL cache module (`common/cache/cache.go`)

Shallow embedding of the Go package `cache`: a TTL cache built on a
`sync.Map` from `interface{}` keys to `*element` values, with lazy
eviction on `Get`/`GetWithExpire`, an eager background sweep
(`cleanup`, driven by the `janitor` loop), and selective gob
persistence (`Save`/`Reload`).

Modelling choices:
* Wall-clock time is `Int`, in seconds.  `time.Since(x) > 0` at current
  time `now` is embedded as `now - x > 0`.  The Go zero `time.Time` (the
  zero value returned by `GetWithExpire` on the miss paths) is `0`.
* Go `interface{}` values (both keys and payloads) are embedded as
  `GoVal`, which includes the untyped `nil`, strings, and non-string
  representatives (integers, booleans).  A failed type assertion such
  as `k.(string)` is a run-time panic; fallible code is embedded in
  `Except Unit` with `Except.error ()` standing for the panic.
* The `sync.Map` is embedded as an association list with unique keys;
  `Store`/`Load`/`Delete`/`Range` of `sync.Map` become `mapStore`,
  `mapLoad`, `mapDelete` and structural recursion over the list.
* The gob-encoded snapshot file is embedded by its decoded content: a
  `List (String × String)` (the `map[string]string` that
  `Save` encodes and `Reload` decodes).  The two silent failure
  paths of `Reload` (`os.Open` error, decoder error) are the `openError` and
  `decodeError` constructors of `FileRead`.
* The `janitor.process` select loop is embedded by the sequence of
  channel events it consumes (`tick` from `ticker.C`, `stop` from
  `j.stop`); on `tick` it sweeps, on `stop` it returns.
-/

/-- Embedding of Go `interface{}` values: the untyped `nil`, strings,
and non-string values (`int`, `bool`) as representatives of every
other dynamic type. -/
inductive GoVal where
  | nilv : GoVal
  | str : String → GoVal
  | int : Int → GoVal
  | bool : Bool → GoVal
deriving DecidableEq, Repr

/-- The Go struct `element`: a payload together with its absolute
expiration time (`Expired time.Time; Payload interface{}`). -/
structure Element where
  Expired : Int
  Payload : GoVal
deriving DecidableEq, Repr

/-- The `sync.Map` field `mapping`, embedded as an association list
from keys to elements. -/
abbrev Store := List (GoVal × Element)

/-- `sync.Map.Load`: the element stored under `k`, if any. -/
def mapLoad : Store → GoVal → Option Element
  | [], _ => none
  | (k', e) :: rest, k => if k' = k then some e else mapLoad rest k

/-- `sync.Map.Store`: insert-or-replace the element under `k`. -/
def mapStore : Store → GoVal → Element → Store
  | [], k, e => [(k, e)]
  | (k', e') :: rest, k, e =>
      if k' = k then (k, e) :: rest else (k', e') :: mapStore rest k e

/-- `sync.Map.Delete`: remove the entry under `k` (no-op when absent). -/
def mapDelete : Store → GoVal → Store
  | [], _ => []
  | (k', e) :: rest, k =>
      if k' = k then mapDelete rest k else (k', e) :: mapDelete rest k

/-- `cache.Put`: stores `&element{Payload: payload, Expired: time.Now().Add(ttl)}`
under `key`. `now` is the value of `time.Now()` at the call. -/
def Put (m : Store) (now : Int) (key payload : GoVal) (ttl : Int) : Store :=
  mapStore m key ⟨now + ttl, payload⟩

/-- `cache.Get`: load `key`; on a miss return `nil`; if
`time.Since(elm.Expired) > 0` delete the key and return `nil`;
otherwise return the payload.  The result pairs the returned value
with the store after the call. -/
def Get (m : Store) (now : Int) (key : GoVal) : GoVal × Store :=
  match mapLoad m key with
  | none => (GoVal.nilv, m)
  | some elm =>
      if now - elm.Expired > 0 then (GoVal.nilv, mapDelete m key)
      else (elm.Payload, m)

/-- `cache.GetWithExpire`: like `Get` but also returns the expiration
time; both miss paths return the zero values `(nil, time.Time{})`,
embedded as `(GoVal.nilv, 0)`. -/
def GetWithExpire (m : Store) (now : Int) (key : GoVal) :
    (GoVal × Int) × Store :=
  match mapLoad m key with
  | none => ((GoVal.nilv, 0), m)
  | some elm =>
      if now - elm.Expired > 0 then ((GoVal.nilv, 0), mapDelete m key)
      else ((elm.Payload, elm.Expired), m)

/-- The run-time type assertion `v.(string)`: yields the string, or
panics (`Except.error ()`) when the dynamic type is not `string`. -/
def goAssertString : GoVal → Except Unit String
  | GoVal.str s => Except.ok s
  | _ => Except.error ()

/-- `strings.HasPrefix(s, pre)`, embedded over the character lists of
the two strings (the same semantics as `String.startsWith`, in a form
the kernel evaluates directly). -/
def goHasPrefix (s pre : String) : Bool :=
  pre.data.isPrefixOf s.data

/-- The body of the `Range` loop in `cache.Save`: for each entry,
`key := k.(string)` (a panic point for non-string keys); if
`strings.HasPrefix(key, "fakeip:")` then
`res[key] = v.(*element).Payload.(string)` (a panic point for
non-string payloads); entries whose string key lacks the prefix are
skipped.  The result is the `map[string]string` that `Save` gob-encodes
to the file; the `Except` bind of the Go panic is written as explicit
matches. -/
def saveEntries : Store → Except Unit (List (String × String))
  | [] => Except.ok []
  | (k, elm) :: rest =>
      match goAssertString k with
      | Except.error e => Except.error e
      | Except.ok key =>
          if goHasPrefix key "fakeip:" then
            match goAssertString elm.Payload with
            | Except.error e => Except.error e
            | Except.ok p =>
                match saveEntries rest with
                | Except.error e => Except.error e
                | Except.ok out => Except.ok ((key, p) :: out)
          else saveEntries rest

/-- What `Reload` reads from the file: `os.Open` may fail
(`openError`), the gob decode may fail (`decodeError`), or a
`map[string]string` is decoded (`content`). -/
inductive FileRead where
  | openError : FileRead
  | decodeError : FileRead
  | content : List (String × String) → FileRead

/-- `cache.Reload`: on either failure path, return `0` with the store
untouched; otherwise `c.Put(k, v, 600*time.Second)` for every decoded
pair and count them in a `uint32`.  Returns the count paired with the
resulting store. -/
def Reload (m : Store) (now : Int) (file : FileRead) : Nat × Store :=
  match file with
  | FileRead.openError => (0, m)
  | FileRead.decodeError => (0, m)
  | FileRead.content items =>
      (items.length % 2 ^ 32,
       items.foldl
         (fun acc kv => Put acc now (GoVal.str kv.1) (GoVal.str kv.2) 600)
         m)

/-- `cache.cleanup`: the janitor sweep.  For each entry,
`key := k.(string)` (a panic point for non-string keys), then delete
the entry when `time.Since(elm.Expired) > 0`.  `check : GoVal → Int`
gives the wall-clock instant at which the expiration of each entry is
observed (the sweep does not use one snapshot time for all entries). -/
def cleanup (check : GoVal → Int) : Store → Except Unit Store
  | [] => Except.ok []
  | (k, elm) :: rest =>
      match goAssertString k with
      | Except.error e => Except.error e
      | Except.ok _key =>
          match cleanup check rest with
          | Except.error e => Except.error e
          | Except.ok rest' =>
              if check k - elm.Expired > 0 then Except.ok rest'
              else Except.ok ((k, elm) :: rest')

/-- A channel event consumed by the `select` in `janitor.process`: a tick
of `ticker.C`, or the one-shot signal on `j.stop`. -/
inductive JEvent where
  | tick : JEvent
  | stop : JEvent
deriving DecidableEq, Repr

/-- `janitor.process`, abstracted to the number of sweeps it performs:
it consumes delivered channel events in order; each `tick` runs
`c.cleanup()` and loops; the first `stop` stops the ticker and
returns, so later events are never consumed. -/
def sweepsOf : List JEvent → Nat
  | [] => 0
  | JEvent.tick :: es => sweepsOf es + 1
  | JEvent.stop :: _ => 0

/-- `true` exactly when the dynamic type of the value is `string`,
i.e. when the assertion `v.(string)` would succeed. -/
def isStringVal : GoVal → Bool
  | GoVal.str _ => true
  | _ => false

/-- Shape under which the `Range` body of `Save` reaches no failing
type assertion on an entry: the key is a string and, when it carries
the `"fakeip:"` tag, the payload is a string too. -/
def savableShape (p : GoVal × Element) : Bool :=
  match p.1 with
  | GoVal.str k => !goHasPrefix k "fakeip:" || isStringVal p.2.Payload
  | _ => false

/-! ## Lemmas about the `sync.Map` embedding -/

theorem mapLoad_mapStore_self (m : Store) (k : GoVal) (e : Element) :
    mapLoad (mapStore m k e) k = some e := by
  induction m with
  | nil => simp [mapStore, mapLoad]
  | cons p rest ih =>
      obtain ⟨k', e'⟩ := p
      by_cases h : k' = k
      · simp [mapStore, mapLoad, h]
      · simp [mapStore, mapLoad, h, ih]

theorem mapLoad_mapStore_ne (m : Store) (k k' : GoVal) (e : Element)
    (h : k' ≠ k) : mapLoad (mapStore m k e) k' = mapLoad m k' := by
  induction m with
  | nil => simp [mapStore, mapLoad, Ne.symm h]
  | cons p rest ih =>
      obtain ⟨k₀, e₀⟩ := p
      by_cases h0 : k₀ = k
      · subst h0
        simp [mapStore, mapLoad, Ne.symm h]
      · simp [mapStore, mapLoad, h0, ih]

theorem mapLoad_mapDelete_self (m : Store) (k : GoVal) :
    mapLoad (mapDelete m k) k = none := by
  induction m with
  | nil => simp [mapDelete, mapLoad]
  | cons p rest ih =>
      obtain ⟨k', e'⟩ := p
      by_cases h : k' = k
      · simp [mapDelete, h, ih]
      · simp [mapDelete, mapLoad, h, ih]

theorem mapLoad_mem (m : Store) (k : GoVal) (e : Element)
    (h : mapLoad m k = some e) : (k, e) ∈ m := by
  induction m with
  | nil => simp [mapLoad] at h
  | cons p rest ih =>
      obtain ⟨k', e'⟩ := p
      by_cases hk : k' = k
      · subst hk
        simp [mapLoad] at h
        simp [h]
      · simp [mapLoad, hk] at h
        exact List.mem_cons_of_mem _ (ih h)

theorem sweepsOf_append_stop (pre post : List JEvent) :
    sweepsOf (pre ++ JEvent.stop :: post) = sweepsOf (pre ++ [JEvent.stop]) := by
  induction pre with
  | nil => simp [sweepsOf]
  | cons e rest ih => cases e <;> simp [sweepsOf, ih]

/-! ## Claims -/

/-- C1: for every key `k`, payload `v` and TTL `t > 0`, `Put(k, v, t)`
followed immediately by `Get(k)` (same `time.Now()` value) returns `v`
and leaves the store as `Put` left it. -/
theorem put_then_get_returns_payload (m : Store) (now : Int)
    (k v : GoVal) (t : Int) (ht : 0 < t) :
    Get (Put m now k v t) now k = (v, Put m now k v t) := by
  unfold Get Put
  rw [mapLoad_mapStore_self]
  simp
  intro h
  exact absurd h (by omega)

theorem put_then_get_returns_payload_witness :
    (0 : Int) < 5 ∧
    Get (Put [] 0 (GoVal.str "k") (GoVal.str "v") 5) 0 (GoVal.str "k") =
      (GoVal.str "v", Put [] 0 (GoVal.str "k") (GoVal.str "v") 5) :=
  ⟨by decide, put_then_get_returns_payload [] 0 (GoVal.str "k")
    (GoVal.str "v") 5 (by decide)⟩

/-- C2: for every key present in the store, `Get` at a time strictly
past the expiration removes the key and returns `nil` (absent);
otherwise it returns the stored payload and leaves the store
unchanged.  Hence `Get` never returns the payload of an entry whose
expiration has passed. -/
theorem get_lazy_eviction (m : Store) (now : Int) (k : GoVal)
    (e : Element) (h : mapLoad m k = some e) :
    (now - e.Expired > 0 →
      Get m now k = (GoVal.nilv, mapDelete m k) ∧
      mapLoad (Get m now k).2 k = none) ∧
    (¬ now - e.Expired > 0 → Get m now k = (e.Payload, m)) := by
  constructor
  · intro hexp
    have hg : Get m now k = (GoVal.nilv, mapDelete m k) := by
      unfold Get
      rw [h]
      simp [hexp]
    exact ⟨hg, by rw [hg]; exact mapLoad_mapDelete_self m k⟩
  · intro hlive
    unfold Get
    rw [h]
    simp [hlive]

theorem get_lazy_eviction_witness :
    mapLoad [(GoVal.str "a", ⟨5, GoVal.str "p"⟩)] (GoVal.str "a") =
      some ⟨5, GoVal.str "p"⟩ ∧
    (((10 : Int) - (5 : Int) > 0 →
        Get [(GoVal.str "a", ⟨5, GoVal.str "p"⟩)] 10 (GoVal.str "a") =
          (GoVal.nilv, mapDelete [(GoVal.str "a", ⟨5, GoVal.str "p"⟩)] (GoVal.str "a")) ∧
        mapLoad (Get [(GoVal.str "a", ⟨5, GoVal.str "p"⟩)] 10 (GoVal.str "a")).2
          (GoVal.str "a") = none) ∧
      (¬ (10 : Int) - (5 : Int) > 0 →
        Get [(GoVal.str "a", ⟨5, GoVal.str "p"⟩)] 10 (GoVal.str "a") =
          (GoVal.str "p", [(GoVal.str "a", ⟨5, GoVal.str "p"⟩)]))) :=
  ⟨by decide,
   get_lazy_eviction [(GoVal.str "a", ⟨5, GoVal.str "p"⟩)] 10 (GoVal.str "a")
     ⟨5, GoVal.str "p"⟩ (by decide)⟩

/-- C7: when the snapshot file cannot be opened, or its contents fail
to gob-decode, `Reload` returns `0` and the store is exactly the store
before the call (no entry added, removed or modified). -/
theorem reload_silent_failure_unchanged (m : Store) (now : Int) :
    Reload m now FileRead.openError = (0, m) ∧
    Reload m now FileRead.decodeError = (0, m) :=
  ⟨rfl, rfl⟩

/-- C9: once the stop signal is consumed by the `janitor.process`
loop, no further sweep runs, whatever ticker events are delivered
afterwards; and `Get` on the same store still performs lazy eviction
exactly as before (its behaviour never depends on the janitor). -/
theorem janitor_stop_no_more_sweeps (pre post : List JEvent)
    (m : Store) (now : Int) (k : GoVal) (e : Element)
    (hload : mapLoad m k = some e) (hexp : now - e.Expired > 0) :
    sweepsOf (pre ++ JEvent.stop :: post) = sweepsOf (pre ++ [JEvent.stop]) ∧
    Get m now k = (GoVal.nilv, mapDelete m k) := by
  refine ⟨sweepsOf_append_stop pre post, ?_⟩
  unfold Get
  rw [hload]
  simp [hexp]

theorem janitor_stop_no_more_sweeps_witness :
    mapLoad [(GoVal.str "a", ⟨5, GoVal.str "p"⟩), (GoVal.str "b", ⟨99, GoVal.int 3⟩)]
      (GoVal.str "a") = some ⟨5, GoVal.str "p"⟩ ∧
    (10 : Int) - 5 > 0 ∧
    (sweepsOf ([JEvent.tick] ++ JEvent.stop :: [JEvent.tick, JEvent.tick]) =
        sweepsOf ([JEvent.tick] ++ [JEvent.stop]) ∧
      Get [(GoVal.str "a", ⟨5, GoVal.str "p"⟩), (GoVal.str "b", ⟨99, GoVal.int 3⟩)]
          10 (GoVal.str "a") =
        (GoVal.nilv,
         mapDelete [(GoVal.str "a", ⟨5, GoVal.str "p"⟩), (GoVal.str "b", ⟨99, GoVal.int 3⟩)]
           (GoVal.str "a"))) :=
  ⟨by decide, by decide,
   janitor_stop_no_more_sweeps [JEvent.tick] [JEvent.tick, JEvent.tick]
     [(GoVal.str "a", ⟨5, GoVal.str "p"⟩), (GoVal.str "b", ⟨99, GoVal.int 3⟩)]
     10 (GoVal.str "a") ⟨5, GoVal.str "p"⟩ (by decide) (by decide)⟩

/-- C3 (counterexample): `Save` does not silently skip every
non-matching entry.  An entry whose key has the `"fakeip:"` tag but
whose payload is not a string makes the `Range` body panic on
`v.(*element).Payload.(string)`, and an entry with a non-string key
makes it panic on `k.(string)`. -/
theorem save_assertion_panics_cex :
    goHasPrefix "fakeip:a" "fakeip:" = true ∧
    saveEntries [(GoVal.str "fakeip:a", ⟨100, GoVal.int 5⟩)] =
      Except.error () ∧
    saveEntries [(GoVal.int 7, ⟨100, GoVal.str "x"⟩)] = Except.error () :=
  ⟨by decide, rfl, rfl⟩

/-- C3 (amended): when every key is a string and every
`"fakeip:"`-tagged entry has a string payload, `Save` persists exactly
the tagged entries and silently skips all the others, whatever the
payload type of a skipped entry. -/
theorem save_skips_nonmatching_entries (m : Store)
    (h : ∀ p ∈ m, savableShape p = true) :
    saveEntries m = Except.ok (m.filterMap fun p =>
      match p.1, p.2.Payload with
      | GoVal.str k, GoVal.str v =>
          if goHasPrefix k "fakeip:" then some (k, v) else none
      | _, _ => none) := by
  induction m with
  | nil => rfl
  | cons p rest ih =>
      obtain ⟨k, elm⟩ := p
      have hp := h (k, elm) (List.mem_cons_self _ _)
      have hrest := ih (fun q hq => h q (List.mem_cons_of_mem _ hq))
      cases k with
      | str s =>
          by_cases hpre : goHasPrefix s "fakeip:"
          · have hpay : isStringVal elm.Payload = true := by
              simpa [savableShape, hpre] using hp
            cases hepay : elm.Payload with
            | str v =>
                simp [saveEntries, goAssertString, hpre, hrest, hepay]
            | nilv => rw [hepay] at hpay; simp [isStringVal] at hpay
            | int i => rw [hepay] at hpay; simp [isStringVal] at hpay
            | bool b => rw [hepay] at hpay; simp [isStringVal] at hpay
          · cases hepay : elm.Payload with
            | str v => simp [saveEntries, goAssertString, hpre, hrest, hepay]
            | nilv => simp [saveEntries, goAssertString, hpre, hrest, hepay]
            | int i => simp [saveEntries, goAssertString, hpre, hrest, hepay]
            | bool b => simp [saveEntries, goAssertString, hpre, hrest, hepay]
      | nilv => simp [savableShape] at hp
      | int i => simp [savableShape] at hp
      | bool b => simp [savableShape] at hp

theorem save_skips_nonmatching_entries_witness :
    (∀ p ∈ ([(GoVal.str "fakeip:a", ⟨1, GoVal.str "h"⟩),
             (GoVal.str "other:1", ⟨1, GoVal.int 9⟩)] : Store),
        savableShape p = true) ∧
    saveEntries [(GoVal.str "fakeip:a", ⟨1, GoVal.str "h"⟩),
                 (GoVal.str "other:1", ⟨1, GoVal.int 9⟩)] =
      Except.ok
        (([(GoVal.str "fakeip:a", ⟨1, GoVal.str "h"⟩),
           (GoVal.str "other:1", ⟨1, GoVal.int 9⟩)] : Store).filterMap fun p =>
          match p.1, p.2.Payload with
          | GoVal.str k, GoVal.str v =>
              if goHasPrefix k "fakeip:" then some (k, v) else none
          | _, _ => none) :=
  ⟨by decide,
   save_skips_nonmatching_entries
     [(GoVal.str "fakeip:a", ⟨1, GoVal.str "h"⟩),
      (GoVal.str "other:1", ⟨1, GoVal.int 9⟩)] (by decide)⟩

/-- C4: the janitor sweep is not fault-free on stores with non-string
keys.  `cleanup` runs `key := k.(string)` on every key, so a store
holding the (legal, since `Put` accepts `interface{}` keys) key
`42` makes the sweep panic — here the single entry is not even
expired, so a pure observe-and-delete sweep would have had nothing to
do. -/
theorem cleanup_panics_on_nonstring_key :
    cleanup (fun _ => 0) [(GoVal.int 42, ⟨100, GoVal.str "x"⟩)] =
      Except.error () ∧
    ¬ ((0 : Int) - 100 > 0) :=
  ⟨rfl, by decide⟩

/-- C8: on a store whose keys are all strings (so that the sweep
completes), `cleanup` keeps exactly the entries whose expiration has
not passed at the instant that entry is checked, and removes exactly
those whose expiration has passed at that instant. -/
theorem cleanup_removes_exactly_expired (check : GoVal → Int) (m : Store)
    (h : ∀ p ∈ m, isStringVal p.1 = true) :
    cleanup check m =
      Except.ok (m.filter fun p => decide (¬ check p.1 - p.2.Expired > 0)) := by
  induction m with
  | nil => rfl
  | cons p rest ih =>
      obtain ⟨k, elm⟩ := p
      have hk := h (k, elm) (List.mem_cons_self _ _)
      have hrest := ih (fun q hq => h q (List.mem_cons_of_mem _ hq))
      cases k with
      | str s =>
          by_cases hexp : check (GoVal.str s) - elm.Expired > 0
          · have hle : ¬ check (GoVal.str s) ≤ elm.Expired := by omega
            simp [cleanup, goAssertString, hrest, hexp, hle]
          · have hle : check (GoVal.str s) ≤ elm.Expired := by omega
            simp [cleanup, goAssertString, hrest, hexp, hle]
      | nilv => simp [isStringVal] at hk
      | int i => simp [isStringVal] at hk
      | bool b => simp [isStringVal] at hk

theorem cleanup_removes_exactly_expired_witness :
    (∀ p ∈ ([(GoVal.str "a", ⟨5, GoVal.nilv⟩),
             (GoVal.str "b", ⟨20, GoVal.str "q"⟩)] : Store),
        isStringVal p.1 = true) ∧
    cleanup (fun _ => 10)
        [(GoVal.str "a", ⟨5, GoVal.nilv⟩), (GoVal.str "b", ⟨20, GoVal.str "q"⟩)] =
      Except.ok
        (([(GoVal.str "a", ⟨5, GoVal.nilv⟩),
           (GoVal.str "b", ⟨20, GoVal.str "q"⟩)] : Store).filter fun p =>
          decide (¬ (fun _ => (10 : Int)) p.1 - p.2.Expired > 0)) :=
  ⟨by decide,
   cleanup_removes_exactly_expired (fun _ => 10)
     [(GoVal.str "a", ⟨5, GoVal.nilv⟩), (GoVal.str "b", ⟨20, GoVal.str "q"⟩)]
     (by decide)⟩

/-- C5: the save/reload round trip through the prefix filter.  A store
holding `"fakeip:10.0.0.1" ↦ "host-a"` and `"other:1" ↦ "x"` saves a
file containing only the `"fakeip:"` entry; reloading that file into a
fresh store makes `Get` return `"host-a"` for the fakeip key and `nil`
(absent) for the other key. -/
theorem save_reload_roundtrip :
    saveEntries
        [(GoVal.str "fakeip:10.0.0.1", ⟨100, GoVal.str "host-a"⟩),
         (GoVal.str "other:1", ⟨100, GoVal.str "x"⟩)] =
      Except.ok [("fakeip:10.0.0.1", "host-a")] ∧
    (Reload [] 0 (FileRead.content [("fakeip:10.0.0.1", "host-a")])).1 = 1 ∧
    (Get (Reload [] 0 (FileRead.content [("fakeip:10.0.0.1", "host-a")])).2 0
        (GoVal.str "fakeip:10.0.0.1")).1 = GoVal.str "host-a" ∧
    (Get (Reload [] 0 (FileRead.content [("fakeip:10.0.0.1", "host-a")])).2 0
        (GoVal.str "other:1")).1 = GoVal.nilv :=
  ⟨rfl, rfl, rfl, rfl⟩

theorem mapLoad_foldl_put_notmem (items : List (String × String))
    (m : Store) (now : Int) (key : GoVal)
    (h : ∀ q ∈ items, GoVal.str q.1 ≠ key) :
    mapLoad
      (items.foldl
        (fun acc q => Put acc now (GoVal.str q.1) (GoVal.str q.2) 600) m)
      key = mapLoad m key := by
  induction items generalizing m with
  | nil => rfl
  | cons hd rest ih =>
      rw [List.foldl_cons]
      rw [ih _ (fun q hq => h q (List.mem_cons_of_mem _ hq))]
      exact mapLoad_mapStore_ne m (GoVal.str hd.1) key _
        (Ne.symm (h hd (List.mem_cons_self _ _)))

theorem mapLoad_foldl_put_mem (now : Int) (items : List (String × String)) :
    ∀ (kv : String × String) (m : Store), kv ∈ items →
      (items.map Prod.fst).Nodup →
      mapLoad
        (items.foldl
          (fun acc q => Put acc now (GoVal.str q.1) (GoVal.str q.2) 600) m)
        (GoVal.str kv.1) = some ⟨now + 600, GoVal.str kv.2⟩ := by
  induction items with
  | nil => intro kv m hmem _; cases hmem
  | cons hd rest ih =>
      intro kv m hmem hnodup
      rw [List.map_cons, List.nodup_cons] at hnodup
      rw [List.foldl_cons]
      rcases List.mem_cons.mp hmem with heq | hmem2
      · subst heq
        have hne : ∀ q ∈ rest, GoVal.str q.1 ≠ GoVal.str kv.1 := by
          intro q hq hcontra
          have hfst : q.1 = kv.1 := by injection hcontra
          exact hnodup.1 (hfst ▸ List.mem_map_of_mem Prod.fst hq)
        rw [mapLoad_foldl_put_notmem rest _ now _ hne]
        exact mapLoad_mapStore_self m _ _
      · exact ih kv _ hmem2 hnodup.2

/-- C6: every entry loaded by `Reload` is stored with expiration
exactly `now + 600` seconds (the fixed `600*time.Second` TTL measured
from the reload), whatever TTL the entry carried before `Save`, and
the returned count is the number of entries loaded (the decoded map
has unique keys; the count fits the `uint32` accumulator). -/
theorem reload_fixed_ttl_and_count (m : Store) (now : Int)
    (items : List (String × String))
    (hnodup : (items.map Prod.fst).Nodup)
    (hlen : items.length < 2 ^ 32) :
    (Reload m now (FileRead.content items)).1 = items.length ∧
    ∀ kv ∈ items,
      mapLoad (Reload m now (FileRead.content items)).2 (GoVal.str kv.1) =
        some ⟨now + 600, GoVal.str kv.2⟩ := by
  constructor
  · exact Nat.mod_eq_of_lt hlen
  · intro kv hmem
    exact mapLoad_foldl_put_mem now items kv m hmem hnodup

theorem reload_fixed_ttl_and_count_witness :
    (([("a", "1"), ("b", "2")] : List (String × String)).map Prod.fst).Nodup ∧
    ([("a", "1"), ("b", "2")] : List (String × String)).length < 2 ^ 32 ∧
    ((Reload [] 7 (FileRead.content [("a", "1"), ("b", "2")])).1 = 2 ∧
      ∀ kv ∈ ([("a", "1"), ("b", "2")] : List (String × String)),
        mapLoad (Reload [] 7 (FileRead.content [("a", "1"), ("b", "2")])).2
            (GoVal.str kv.1) = some ⟨7 + 600, GoVal.str kv.2⟩) :=
  ⟨by decide, by decide,
   reload_fixed_ttl_and_count [] 7 [("a", "1"), ("b", "2")]
     (by decide) (by decide)⟩

/-- C10 (counterexample): the nil payload alone does not signal
absence.  `Put(k, nil, ttl)` is legal (`interface{}` payload), and
`GetWithExpire` then returns a nil payload with the (nonzero)
expiration for a key that is present and unexpired. -/
theorem getwithexpire_nil_payload_cex :
    (GetWithExpire [(GoVal.str "k", ⟨10, GoVal.nilv⟩)] 0 (GoVal.str "k")).1 =
      (GoVal.nilv, 10) ∧
    mapLoad [(GoVal.str "k", ⟨10, GoVal.nilv⟩)] (GoVal.str "k") =
      some ⟨10, GoVal.nilv⟩ ∧
    ¬ ((0 : Int) - 10 > 0) ∧ (10 : Int) ≠ 0 := by decide

/-- C10 (amended): `GetWithExpire` returns the pair
`(nil, zero time)` exactly when the key is absent or expired, and
otherwise returns the stored payload with the entry expiration, which
is then nonzero provided no entry was stored with the zero time as its
expiration — so the caller detects absence by the returned pair (or by
the zero timestamp), though not by the nil payload alone. -/
theorem getwithexpire_pair_spec (m : Store) (now : Int) (k : GoVal)
    (hz : ∀ p ∈ m, p.2.Expired ≠ 0) :
    (mapLoad m k = none → GetWithExpire m now k = ((GoVal.nilv, 0), m)) ∧
    (∀ e, mapLoad m k = some e → now - e.Expired > 0 →
        GetWithExpire m now k = ((GoVal.nilv, 0), mapDelete m k)) ∧
    (∀ e, mapLoad m k = some e → ¬ now - e.Expired > 0 →
        GetWithExpire m now k = ((e.Payload, e.Expired), m) ∧
        e.Expired ≠ 0) := by
  refine ⟨?_, ?_, ?_⟩
  · intro h
    unfold GetWithExpire
    rw [h]
  · intro e h hexp
    unfold GetWithExpire
    rw [h]
    simp [hexp]
  · intro e h hlive
    refine ⟨?_, hz (k, e) (mapLoad_mem m k e h)⟩
    unfold GetWithExpire
    rw [h]
    simp [hlive]

theorem getwithexpire_pair_spec_witness :
    (∀ p ∈ ([(GoVal.str "k", ⟨10, GoVal.str "v"⟩)] : Store),
        p.2.Expired ≠ 0) ∧
    ((mapLoad [(GoVal.str "k", ⟨10, GoVal.str "v"⟩)] (GoVal.str "k") = none →
        GetWithExpire [(GoVal.str "k", ⟨10, GoVal.str "v"⟩)] 0 (GoVal.str "k") =
          ((GoVal.nilv, 0), [(GoVal.str "k", ⟨10, GoVal.str "v"⟩)])) ∧
      (∀ e, mapLoad [(GoVal.str "k", ⟨10, GoVal.str "v"⟩)] (GoVal.str "k") = some e →
          (0 : Int) - e.Expired > 0 →
          GetWithExpire [(GoVal.str "k", ⟨10, GoVal.str "v"⟩)] 0 (GoVal.str "k") =
            ((GoVal.nilv, 0),
             mapDelete [(GoVal.str "k", ⟨10, GoVal.str "v"⟩)] (GoVal.str "k"))) ∧
      (∀ e, mapLoad [(GoVal.str "k", ⟨10, GoVal.str "v"⟩)] (GoVal.str "k") = some e →
          ¬ (0 : Int) - e.Expired > 0 →
          GetWithExpire [(GoVal.str "k", ⟨10, GoVal.str "v"⟩)] 0 (GoVal.str "k") =
            ((e.Payload, e.Expired), [(GoVal.str "k", ⟨10, GoVal.str "v"⟩)]) ∧
          e.Expired ≠ 0)) :=
  ⟨by decide,
   getwithexpire_pair_spec [(GoVal.str "k", ⟨10, GoVal.str "v"⟩)] 0
     (GoVal.str "k") (by decide)⟩
